import Mathlib

/-!
# wslce-tiny: path translation and descriptor table

A shallow embedding of the path translator, the descriptor table and the file
primitives of `wslce-tiny.c`, followed by the properties checked against it.

Conventions of the embedding

* A C string is the list of its bytes before the terminating NUL (`CStr`), so
  the test `s[0] == 0` reads `s = []`; `'/'` is byte 47 and `'\\'` is byte 92.
* A `cap` argument is the size in bytes of the destination buffer, exactly as
  in the C signatures; every call site of the program passes `sizeof buf = 1024`.
* Globals (`g_root_utf8`, `g_cwd_utf8`, `g_fdtab`) are passed in and handed
  back explicitly.
* `int` values are `Int`, `HANDLE` and `DWORD` values are `Nat`.
-/

namespace WslceTiny

/-- A C string: the bytes that precede the NUL terminator. -/
abbrev CStr := List Nat

/-- The byte of a character; used to write ASCII strings legibly. -/
def bytes (s : String) : CStr := s.toList.map Char.toNat

/-- Size of the stack buffers that hold paths (`char wince[1024]`, `char norm[1024]`). -/
abbrev PATH_CAP : Nat := 1024

/-- Size of the global `g_root_utf8` buffer. -/
abbrev ROOT_CAP : Nat := 512

/-- Size of the global `g_cwd_utf8` buffer. -/
abbrev CWD_CAP : Nat := 1024

/-! ## Win32 string primitives -/

/-- Win32 `lstrcpynA(dst, src, cap)`: copies at most `cap - 1` bytes of `src`
and terminates the destination. The value is the string left in `dst`. -/
def lstrcpynA (src : CStr) (cap : Nat) : CStr := src.take (cap - 1)

/-- Win32 `lstrlenA`. -/
def lstrlenA (s : CStr) : Nat := s.length

/-- Reading `s[i]` of a C string: the byte at `i`, the terminator at its end. -/
def charAt (s : CStr) (i : Nat) : Nat := s.getD i 0

/-! ## Path translation -/

/-- The built-in default root, `"\\Storage Card\\wslce-root"`. -/
def DEFAULT_ROOT : CStr := bytes "\\Storage Card\\wslce-root"

/-- `ensure_default_root`: leaves a non-empty root alone; otherwise takes the
environment value `WSLCE_ROOT` when `GetEnvironmentVariableA` reports a length
`got` with `0 < got < 512` (`env = none` when the variable is absent), and the
default otherwise. The value is the new content of `g_root_utf8`. -/
def ensure_default_root (env : Option CStr) (g_root_utf8 : CStr) : CStr :=
  if g_root_utf8 ≠ [] then g_root_utf8
  else
    match env with
    | some envroot =>
      if 0 < envroot.length ∧ envroot.length < ROOT_CAP then lstrcpynA envroot ROOT_CAP
      else lstrcpynA DEFAULT_ROOT ROOT_CAP
    | none => lstrcpynA DEFAULT_ROOT ROOT_CAP

/-- `join_wince_path(a, b, out, cap)`: the string left in `out`. -/
def join_wince_path (a b : CStr) (cap : Nat) : CStr :=
  let out := lstrcpynA a cap
  let la := lstrlenA out
  let out1 :=
    if la > 0 ∧ charAt out (la - 1) ≠ 92 then
      (if la + 1 < cap then out ++ [92] else out)
    else out
  let la1 := lstrlenA out1
  out1 ++ lstrcpynA b (cap - la1)

/-- `normalize_linux_path(in, out, cap)` with `g_cwd_utf8` made explicit; `none`
is the NULL pointer. The value is the string left in `out`. -/
def normalize_linux_path (g_cwd_utf8 : CStr) (inp : Option CStr) (cap : Nat) : CStr :=
  match inp with
  | none => lstrcpynA g_cwd_utf8 cap
  | some p =>
    if p = [] then lstrcpynA g_cwd_utf8 cap
    else if charAt p 0 = 47 then lstrcpynA p cap
    else
      let out := lstrcpynA g_cwd_utf8 cap
      let l := lstrlenA out
      let out1 :=
        if l > 1 ∧ charAt out (l - 1) ≠ 47 then
          (if l + 1 < cap then out ++ [47] else out)
        else out
      let l1 := lstrlenA out1
      out1 ++ lstrcpynA p (cap - l1)

/-- The loop `while (*p == '/') ++p;`: the path after its leading `'/'` bytes. -/
def strip_leading (linuxPath : CStr) : CStr := linuxPath.dropWhile (fun c => c = 47)

/-- The assignment `rel[idx++] = (*p == '/') ? '\\' : *p` over a string. -/
def to_backslashes (s : CStr) : CStr := s.map (fun c => if c = 47 then 92 else c)

/-- `linux_to_wince_path(linuxPath, wincePath, cap)`: the string left in
`wincePath`. At most 1023 bytes of the stripped path go into `rel[1024]`. The call
also stores `ensure_default_root env g_root_utf8` in `g_root_utf8`. -/
def linux_to_wince_path (env : Option CStr) (g_root_utf8 : CStr) (linuxPath : CStr)
    (cap : Nat) : CStr :=
  let root := ensure_default_root env g_root_utf8
  let p := strip_leading linuxPath
  let rel := to_backslashes (p.take (PATH_CAP - 1))
  if rel ≠ [] then join_wince_path root rel cap
  else lstrcpynA root cap

/-! ## Descriptor table -/

/-- Number of slots of `g_fdtab`. -/
abbrev MAX_FD : Nat := 32

/-- Win32 `INVALID_HANDLE_VALUE`, `(HANDLE)-1` on the 32-bit target. -/
abbrev INVALID_HANDLE_VALUE : Nat := 0xFFFFFFFF

/-- The global `HANDLE g_fdtab[MAX_FD]`: exactly 32 slots, `0` marking an empty one. -/
structure FdTab where
  slots : List Nat
  size_eq : slots.length = MAX_FD
deriving DecidableEq

/-- Reading `g_fdtab[i]` for an index inside the array. -/
def FdTab.get (g : FdTab) (i : Nat) : Nat := g.slots.getD i 0

/-- The assignment `g_fdtab[i] = h` for an index inside the array. -/
def FdTab.set (g : FdTab) (i : Nat) (h : Nat) : FdTab :=
  ⟨g.slots.set i h, by rw [List.length_set]; exact g.size_eq⟩

/-- The table at program start, `{0}`. -/
def FdTab.empty : FdTab := ⟨List.replicate MAX_FD 0, List.length_replicate _ _⟩

/-- The loop of `fd_alloc` with `n` iterations left and loop variable `i`. -/
def fd_alloc_loop (g : FdTab) (h : Nat) : Nat → Nat → Int × FdTab
  | 0, _ => (-1, g)
  | n + 1, i =>
    if g.get i = 0 then ((i : Int), g.set i h) else fd_alloc_loop g h n (i + 1)

/-- `fd_alloc(h)`: the returned `int` and the table afterwards; the loop runs
`i = 3 .. MAX_FD - 1`. -/
def fd_alloc (g : FdTab) (h : Nat) : Int × FdTab := fd_alloc_loop g h (MAX_FD - 3) 3

/-- `fd_get(fd)`. -/
def fd_get (g : FdTab) (fd : Int) : Nat :=
  if fd < 0 ∨ fd ≥ (MAX_FD : Int) then INVALID_HANDLE_VALUE
  else if g.get fd.toNat ≠ 0 then g.get fd.toNat else INVALID_HANDLE_VALUE

/-- `fd_free(fd)`: the table afterwards. -/
def fd_free (g : FdTab) (fd : Int) : FdTab :=
  if fd ≥ 0 ∧ fd < (MAX_FD : Int) then g.set fd.toNat 0 else g

/-- One call on the descriptor table. -/
inductive FdOp where
  | alloc (h : Nat)
  | free (fd : Int)
deriving DecidableEq

/-- The table after one call. -/
def FdOp.apply (g : FdTab) : FdOp → FdTab
  | .alloc h => (fd_alloc g h).2
  | .free fd => fd_free g fd

/-- The table after a sequence of calls. -/
def run_ops (g : FdTab) (ops : List FdOp) : FdTab := ops.foldl FdOp.apply g

/-- Consecutive `fd_alloc` calls, one per handle: the returned values in call
order and the table afterwards. -/
def alloc_all (g : FdTab) : List Nat → List Int × FdTab
  | [] => ([], g)
  | h :: hs =>
    let r := fd_alloc g h
    let rest := alloc_all r.2 hs
    (r.1 :: rest.1, rest.2)

/-- The table shape reached by `k` successful allocations from the empty table:
slots `0 .. 2` empty, slots `3 .. 3 + k - 1` occupied, the rest empty. -/
def FilledTo (k : Nat) (g : FdTab) : Prop :=
  (∀ m, m < 3 → g.get m = 0) ∧
  (∀ m, 3 ≤ m → m < 3 + k → g.get m ≠ 0) ∧
  (∀ m, 3 + k ≤ m → m < MAX_FD → g.get m = 0)

/-! ## Open flags -/

/-- Win32 creation dispositions. -/
abbrev CREATE_ALWAYS : Nat := 2
abbrev OPEN_EXISTING : Nat := 3
abbrev OPEN_ALWAYS : Nat := 4
abbrev TRUNCATE_EXISTING : Nat := 5

/-- Win32 access rights. -/
abbrev GENERIC_READ : Nat := 0x80000000
abbrev GENERIC_WRITE : Nat := 0x40000000

/-- `map_oflags(oflags)`. -/
def map_oflags (oflags : Nat) : Nat :=
  if oflags &&& 3 = 1 then GENERIC_WRITE
  else if oflags &&& 3 = 2 then GENERIC_READ ||| GENERIC_WRITE
  else GENERIC_READ

/-- `map_creation(oflags)`. -/
def map_creation (oflags : Nat) : Nat :=
  if oflags &&& 0x40 ≠ 0 then
    (if oflags &&& 0x200 ≠ 0 then CREATE_ALWAYS else OPEN_ALWAYS)
  else if oflags &&& 0x200 ≠ 0 then TRUNCATE_EXISTING
  else OPEN_EXISTING

/-! ## Program state and the native layer -/

/-- The three globals of the translation layer. -/
structure Globals where
  g_root_utf8 : CStr
  g_cwd_utf8 : CStr
  g_fdtab : FdTab
deriving DecidableEq

/-- The globals at program start: no root yet, working directory `"/"`, empty table. -/
def Globals.init : Globals := ⟨[], bytes "/", FdTab.empty⟩

/-- Win32 `FILE_ATTRIBUTE_DIRECTORY`. -/
abbrev FILE_ATTRIBUTE_DIRECTORY : Nat := 0x10

/-- `ce_chdir(path)`. `find` stands for `utf8_to_utf16` followed by
`FindFirstFileW`: it maps the native path to `none` when no entry is found and to
the entry's attribute word otherwise. The value is the returned `int` and the
globals afterwards. -/
def ce_chdir (env : Option CStr) (find : CStr → Option Nat) (G : Globals)
    (path : Option CStr) : Int × Globals :=
  let norm := normalize_linux_path G.g_cwd_utf8 path PATH_CAP
  let wince := linux_to_wince_path env G.g_root_utf8 norm PATH_CAP
  let G1 : Globals := { G with g_root_utf8 := ensure_default_root env G.g_root_utf8 }
  match find wince with
  | none => (-1, G1)
  | some attrs =>
    if attrs &&& FILE_ATTRIBUTE_DIRECTORY = 0 then (-1, G1)
    else
      let norm1 := if norm = [] then lstrcpynA (bytes "/") PATH_CAP else norm
      let l := lstrlenA norm1
      let norm2 := if l > 1 ∧ charAt norm1 (l - 1) = 47 then norm1.take (l - 1) else norm1
      (0, { G1 with g_cwd_utf8 := lstrcpynA norm2 CWD_CAP })

/-- One `cd` command: the target, the environment value seen by
`ensure_default_root`, and the answer of the native lookup at that moment. -/
structure ChdirCall where
  path : Option CStr
  env : Option CStr
  find : CStr → Option Nat

/-- The globals after a sequence of `ce_chdir` calls. -/
def chdir_run (G : Globals) (calls : List ChdirCall) : Globals :=
  calls.foldl (fun G c => (ce_chdir c.env c.find G c.path).2) G

/-- The working-directory invariant of the data model: non-empty, begins with
`'/'`, and does not end with `'/'` unless it is exactly `"/"`. -/
def CwdInv (cwd : CStr) : Prop :=
  cwd ≠ [] ∧ cwd.head? = some 47 ∧ (cwd.getLast? = some 47 → cwd = [47])

instance (cwd : CStr) : Decidable (CwdInv cwd) := by
  unfold CwdInv
  exact inferInstance

/-- The native file calls the file primitives are built on, over a world `σ`.
Paths are the UTF-8 native paths handed to `utf8_to_utf16`; the share mode and
attribute arguments, constant in the program, are left out.
`ReadFile w h len` is `none` when the call returns FALSE and the bytes stored in
the buffer otherwise (`got` is their number); `WriteFile w h data` is `none` when
the call returns FALSE and `put` otherwise. -/
structure Native (σ : Type) where
  CreateFileW : σ → CStr → Nat → Nat → Nat × σ
  CloseHandle : σ → Nat → σ
  ReadFile : σ → Nat → Nat → Option (List Nat) × σ
  WriteFile : σ → Nat → List Nat → Option Nat × σ
  SetFilePointerEnd : σ → Nat → σ

/-- The cast `(int)d` of a `DWORD`. -/
def dword_to_int (d : Nat) : Int :=
  if d % 2 ^ 32 < 2 ^ 31 then ((d % 2 ^ 32 : Nat) : Int) else ((d % 2 ^ 32 : Nat) : Int) - 2 ^ 32

/-- `ce_open(path, oflags, mode)`: the returned `int`, the world and the globals
afterwards (`mode` is unused by the code). -/
def ce_open {σ : Type} (api : Native σ) (env : Option CStr) (w : σ) (G : Globals)
    (path : CStr) (oflags : Nat) : Int × σ × Globals :=
  let wince := linux_to_wince_path env G.g_root_utf8 path PATH_CAP
  let G1 : Globals := { G with g_root_utf8 := ensure_default_root env G.g_root_utf8 }
  let acc := map_oflags oflags
  let disp := map_creation oflags
  let r := api.CreateFileW w wince acc disp
  if r.1 = INVALID_HANDLE_VALUE then (-1, r.2, G1)
  else
    let a := fd_alloc G1.g_fdtab r.1
    if a.1 < 0 then (-1, api.CloseHandle r.2 r.1, G1)
    else
      let G2 : Globals := { G1 with g_fdtab := a.2 }
      if oflags &&& 0x400 ≠ 0 then (a.1, api.SetFilePointerEnd r.2 r.1, G2)
      else (a.1, r.2, G2)

/-- `ce_close(fd)`. -/
def ce_close {σ : Type} (api : Native σ) (w : σ) (G : Globals) (fd : Int) : Int × σ × Globals :=
  let h := fd_get G.g_fdtab fd
  if h = INVALID_HANDLE_VALUE then (-1, w, G)
  else (0, api.CloseHandle w h, { G with g_fdtab := fd_free G.g_fdtab fd })

/-- `ce_read(fd, buf, len)`: the returned `int`, the bytes stored in `buf`, and the
world afterwards. -/
def ce_read {σ : Type} (api : Native σ) (w : σ) (G : Globals) (fd : Int) (len : Nat) :
    Int × List Nat × σ :=
  let h := fd_get G.g_fdtab fd
  if h = INVALID_HANDLE_VALUE then (-1, [], w)
  else
    match api.ReadFile w h len with
    | (none, w1) => (-1, [], w1)
    | (some data, w1) => (dword_to_int data.length, data, w1)

/-- `ce_write(fd, buf, len)`: the returned `int` and the world afterwards. -/
def ce_write {σ : Type} (api : Native σ) (w : σ) (G : Globals) (fd : Int) (buf : List Nat)
    (len : Nat) : Int × σ :=
  let h := fd_get G.g_fdtab fd
  if h = INVALID_HANDLE_VALUE then (-1, w)
  else
    match api.WriteFile w h (buf.take len) with
    | (none, w1) => (-1, w1)
    | (some put, w1) => (dword_to_int put, w1)

/-- Size of the chunk buffer of `copy_file`, `char buf[2048]`. -/
abbrev COPY_CHUNK : Nat := 2048

/-- The `while` loop of `copy_file` together with the statements after it, with at
most `fuel` iterations; `none` when the loop has not ended by then. -/
def copy_loop {σ : Type} (api : Native σ) (G : Globals) (sfd dfd : Int) :
    Nat → σ → Option (Int × σ × Globals)
  | 0, _ => none
  | fuel + 1, w =>
    let r := ce_read api w G sfd COPY_CHUNK
    if r.1 > 0 then
      let wr := ce_write api r.2.2 G dfd r.2.1 r.1.toNat
      if wr.1 ≠ r.1 then
        let c1 := ce_close api wr.2 G sfd
        let c2 := ce_close api c1.2.1 c1.2.2 dfd
        some (-1, c2.2.1, c2.2.2)
      else copy_loop api G sfd dfd fuel wr.2
    else
      let c1 := ce_close api r.2.2 G sfd
      let c2 := ce_close api c1.2.1 c1.2.2 dfd
      some (0, c2.2.1, c2.2.2)

/-- `copy_file(src, dst)`: the returned `int`, the world and the globals
afterwards; `none` when the copy loop has not ended within `fuel` iterations. -/
def copy_file {σ : Type} (api : Native σ) (env : Option CStr) (fuel : Nat) (w : σ)
    (G : Globals) (src dst : CStr) : Option (Int × σ × Globals) :=
  let s := ce_open api env w G src 0
  if s.1 < 0 then some (-1, s.2.1, s.2.2)
  else
    let d := ce_open api env s.2.1 s.2.2 dst 0x41
    if d.1 < 0 then
      let c := ce_close api d.2.1 d.2.2 s.1
      some (-1, c.2.1, c.2.2)
    else copy_loop api d.2.2 s.1 d.1 fuel d.2.1

/-! ## A reference native file system -/

/-- An open native handle: the file it refers to and its file pointer. -/
structure OpenFile where
  path : CStr
  pos : Nat
deriving DecidableEq

/-- A small native file system: files as byte strings by native path, the open
handles, and the next handle value to hand out. -/
structure SimFs where
  files : List (CStr × List Nat)
  handles : List (Nat × OpenFile)
  next : Nat
deriving DecidableEq

/-- The content of the file at a native path, if it exists. -/
def SimFs.content (fs : SimFs) (path : CStr) : Option (List Nat) := fs.files.lookup path

/-- Stores `data` as the content of the file at `path`, creating it if needed. -/
def SimFs.store (fs : SimFs) (path : CStr) (data : List Nat) : SimFs :=
  { fs with files := (path, data) :: fs.files.filter (fun f => f.1 ≠ path) }

/-- Hands out a fresh handle on `path` with the file pointer at 0. -/
def SimFs.openAt (fs : SimFs) (path : CStr) : Nat × SimFs :=
  (fs.next, { fs with handles := (fs.next, ⟨path, 0⟩) :: fs.handles, next := fs.next + 1 })

/-- `CreateFileW` by creation disposition: `CREATE_ALWAYS` and `TRUNCATE_EXISTING`
empty an existing file, `OPEN_EXISTING` and `OPEN_ALWAYS` keep its content;
`CREATE_ALWAYS` and `OPEN_ALWAYS` create a missing file, the others fail on it. -/
def SimFs.CreateFileW (fs : SimFs) (path : CStr) (_acc : Nat) (disp : Nat) : Nat × SimFs :=
  match fs.content path with
  | some _ =>
    if disp = CREATE_ALWAYS ∨ disp = TRUNCATE_EXISTING then (fs.store path []).openAt path
    else if disp = OPEN_EXISTING ∨ disp = OPEN_ALWAYS then fs.openAt path
    else (INVALID_HANDLE_VALUE, fs)
  | none =>
    if disp = CREATE_ALWAYS ∨ disp = OPEN_ALWAYS then (fs.store path []).openAt path
    else (INVALID_HANDLE_VALUE, fs)

/-- `CloseHandle`. -/
def SimFs.CloseHandle (fs : SimFs) (h : Nat) : SimFs :=
  { fs with handles := fs.handles.filter (fun e => e.1 ≠ h) }

/-- Moves the file pointer of handle `h` to `pos`. -/
def SimFs.seek (fs : SimFs) (h : Nat) (pos : Nat) : SimFs :=
  { fs with handles := fs.handles.map (fun e => if e.1 = h then (e.1, { e.2 with pos := pos }) else e) }

/-- `ReadFile`: up to `len` bytes from the file pointer on, which moves past them. -/
def SimFs.ReadFile (fs : SimFs) (h : Nat) (len : Nat) : Option (List Nat) × SimFs :=
  match fs.handles.lookup h with
  | none => (none, fs)
  | some f =>
    match fs.content f.path with
    | none => (none, fs)
    | some c =>
      let data := (c.drop f.pos).take len
      (some data, fs.seek h (f.pos + data.length))

/-- `WriteFile`: the bytes replace the content from the file pointer on, growing
the file when they reach past its end; the file pointer moves past them. -/
def SimFs.WriteFile (fs : SimFs) (h : Nat) (data : List Nat) : Option Nat × SimFs :=
  match fs.handles.lookup h with
  | none => (none, fs)
  | some f =>
    match fs.content f.path with
    | none => (none, fs)
    | some c =>
      let c1 := c.take f.pos ++ data ++ c.drop (f.pos + data.length)
      (some data.length, (fs.store f.path c1).seek h (f.pos + data.length))

/-- `SetFilePointer(h, 0, NULL, FILE_END)`. -/
def SimFs.SetFilePointerEnd (fs : SimFs) (h : Nat) : SimFs :=
  match fs.handles.lookup h with
  | none => fs
  | some f =>
    match fs.content f.path with
    | none => fs
    | some c => fs.seek h c.length

/-- The reference file system as a native layer. -/
def simNative : Native SimFs :=
  { CreateFileW := SimFs.CreateFileW
    CloseHandle := SimFs.CloseHandle
    ReadFile := SimFs.ReadFile
    WriteFile := SimFs.WriteFile
    SetFilePointerEnd := SimFs.SetFilePointerEnd }

/-- A file system holding the given files under the default root, no handle open. -/
def SimFs.withFiles (files : List (CStr × List Nat)) : SimFs := ⟨files, [], 0x100⟩

/-- The native lookup of a system in which exactly the default root exists, as a
directory. -/
def rootOnly (wince : CStr) : Option Nat :=
  if wince = DEFAULT_ROOT then some FILE_ATTRIBUTE_DIRECTORY else none

/-- The reference file system with a failing disk: `ReadFile` succeeds only while
the file pointer is at 0 and returns FALSE afterwards. -/
def faultyRead : Native SimFs :=
  { simNative with
    ReadFile := fun fs h len =>
      match fs.handles.lookup h with
      | some f => if f.pos = 0 then SimFs.ReadFile fs h len else (none, fs)
      | none => (none, fs) }

/-- Native path of the virtual file `/s` under the default root. -/
def srcPath : CStr := DEFAULT_ROOT ++ bytes "\\s"

/-- Native path of the virtual file `/d` under the default root. -/
def dstPath : CStr := DEFAULT_ROOT ++ bytes "\\d"

/-- A 1023-byte working directory, `'/'` followed by 1022 times `'a'`. -/
def longCwd : CStr := 47 :: List.replicate 1022 97

/-- A 1024-byte absolute path, `'/'` followed by 1023 times `'a'`. -/
def longAbs : CStr := 47 :: List.replicate 1023 97

/-! ## Recording the native handles opened and closed -/

/-- A world together with the handles `CreateFileW` has returned and the handles
handed to `CloseHandle`, both in call order. -/
structure Traced (σ : Type) where
  world : σ
  opened : List Nat
  closed : List Nat
deriving DecidableEq

/-- A native layer that behaves like `api` and records every handle returned by a
successful `CreateFileW` (one other than `INVALID_HANDLE_VALUE`) and every handle
passed to `CloseHandle`. -/
def traced {σ : Type} (api : Native σ) : Native (Traced σ) :=
  { CreateFileW := fun t path acc disp =>
      let r := api.CreateFileW t.world path acc disp
      (r.1, ⟨r.2, if r.1 = INVALID_HANDLE_VALUE then t.opened else t.opened ++ [r.1], t.closed⟩)
    CloseHandle := fun t h => ⟨api.CloseHandle t.world h, t.opened, t.closed ++ [h]⟩
    ReadFile := fun t h len =>
      let r := api.ReadFile t.world h len
      (r.1, ⟨r.2, t.opened, t.closed⟩)
    WriteFile := fun t h data =>
      let r := api.WriteFile t.world h data
      (r.1, ⟨r.2, t.opened, t.closed⟩)
    SetFilePointerEnd := fun t h => ⟨api.SetFilePointerEnd t.world h, t.opened, t.closed⟩ }

/-- The reference file system on a read-only medium: only opening for reading
(`GENERIC_READ`) succeeds. -/
def readOnlyDisk : Native SimFs :=
  { simNative with
    CreateFileW := fun fs path acc disp =>
      if acc = GENERIC_READ then SimFs.CreateFileW fs path acc disp
      else (INVALID_HANDLE_VALUE, fs) }

/-- The reference file system on a full medium: `WriteFile` succeeds but stores
nothing and reports 0 bytes written. -/
def fullDisk : Native SimFs :=
  { simNative with WriteFile := fun fs _ _ => (some 0, fs) }

/-- A descriptor table with slots `3 .. 3 + k - 1` holding the handle 9. -/
def busyTable (k : Nat) : FdTab :=
  ⟨([0, 0, 0] ++ List.replicate k 9 ++ List.replicate 29 0).take MAX_FD, by
    rw [List.length_take, List.length_append, List.length_append, List.length_replicate,
      List.length_replicate]
    simp [MAX_FD]⟩

/-! ## Building the enumeration pattern -/

/-- The indices of the destination written by `lstrcpynA(dst + off, src, cap)`: the
copied bytes and the terminator, nothing when `cap` is 0. -/
def lstrcpynA_writes (off : Nat) (src : CStr) (cap : Nat) : List Nat :=
  if cap = 0 then [] else List.range' off ((lstrcpynA src cap).length + 1)

/-- The first statements of `ce_opendir(path)`, which build `pat[1024]`: the string
left in `pat` and the indices of `pat` stored to, in program order. The
subtraction `sizeof(pat) - l` is 0 when `l` reaches 1024. -/
def ce_opendir_pat (env : Option CStr) (g_root_utf8 : CStr) (path : CStr) : CStr × List Nat :=
  let wince := linux_to_wince_path env g_root_utf8 path PATH_CAP
  let pat := lstrcpynA wince PATH_CAP
  let w0 := lstrcpynA_writes 0 wince PATH_CAP
  let l := lstrlenA pat
  if l > 0 ∧ charAt pat (l - 1) ≠ 92 then
    (pat ++ [92] ++ lstrcpynA (bytes "*") (PATH_CAP - (l + 1)),
     w0 ++ [l, l + 1] ++ lstrcpynA_writes (l + 1) (bytes "*") (PATH_CAP - (l + 1)))
  else
    (pat ++ lstrcpynA (bytes "*") (PATH_CAP - l),
     w0 ++ lstrcpynA_writes l (bytes "*") (PATH_CAP - l))

/-- The bytes of the command argument `/` followed by 333 times the three-byte
UTF-8 character `E3 81 82`: 1000 bytes, typed as 334 characters. -/
def longLsPath : CStr := 47 :: (List.replicate 333 [0xE3, 0x81, 0x82]).flatten

/-! ## Helper lemmas on strings -/

theorem longCwd_length : longCwd.length = 1023 := by
  unfold longCwd
  rw [List.length_cons, List.length_replicate]

theorem longAbs_length : longAbs.length = 1024 := by
  unfold longAbs
  rw [List.length_cons, List.length_replicate]

theorem charAt_last (l : CStr) (x : Nat) (h : 0 < l.length) :
    charAt l (l.length - 1) = x ↔ l.getLast? = some x := by
  unfold charAt
  rw [List.getLast?_eq_getElem?, List.getD_eq_getElem?_getD]
  have hlt : l.length - 1 < l.length := by omega
  simp [List.getElem?_eq_getElem hlt]

theorem charAt_zero (l : CStr) (x : Nat) (h : l ≠ []) :
    charAt l 0 = x ↔ l.head? = some x := by
  cases l with
  | nil => exact absurd rfl h
  | cons a t => simp [charAt]

theorem lstrcpynA_fits (s : CStr) (cap : Nat) (h : s.length < cap) : lstrcpynA s cap = s := by
  unfold lstrcpynA
  exact List.take_of_length_le (by omega)

theorem lstrcpynA_length_le (s : CStr) (cap : Nat) : (lstrcpynA s cap).length ≤ cap - 1 := by
  unfold lstrcpynA
  simp [List.length_take]

theorem lstrcpynA_subset (s : CStr) (cap : Nat) (c : Nat) (h : c ∈ lstrcpynA s cap) : c ∈ s :=
  List.mem_of_mem_take h

/-- The string built by `normalize_linux_path` always fits its buffer. -/
theorem normalize_length_le (d : CStr) (inp : Option CStr) (cap : Nat) :
    (normalize_linux_path d inp cap).length ≤ cap - 1 := by
  unfold normalize_linux_path
  have h1 := lstrcpynA_length_le d cap
  cases inp with
  | none => exact h1
  | some p =>
    simp only
    split
    · exact h1
    · split
      · exact lstrcpynA_length_le p cap
      · simp only [lstrlenA]
        split
        · split
          · have h2 := lstrcpynA_length_le p (cap - (lstrcpynA d cap ++ [47]).length)
            simp only [List.length_append, List.length_singleton] at h2 ⊢
            omega
          · have h2 := lstrcpynA_length_le p (cap - (lstrcpynA d cap).length)
            simp only [List.length_append]
            omega
        · have h2 := lstrcpynA_length_le p (cap - (lstrcpynA d cap).length)
          simp only [List.length_append]
          omega

/-- The string built by `join_wince_path` always fits its buffer. -/
theorem join_length_le (a b : CStr) (cap : Nat) :
    (join_wince_path a b cap).length ≤ cap - 1 := by
  unfold join_wince_path
  have h1 := lstrcpynA_length_le a cap
  simp only [lstrlenA]
  split
  · split
    · have h2 := lstrcpynA_length_le b (cap - (lstrcpynA a cap ++ [92]).length)
      simp only [List.length_append, List.length_singleton] at h2 ⊢
      omega
    · have h2 := lstrcpynA_length_le b (cap - (lstrcpynA a cap).length)
      simp only [List.length_append]
      omega
  · have h2 := lstrcpynA_length_le b (cap - (lstrcpynA a cap).length)
    simp only [List.length_append]
    omega

/-- The string built by `linux_to_wince_path` always fits its buffer. -/
theorem linux_to_wince_length_le (env : Option CStr) (g : CStr) (p : CStr) (cap : Nat) :
    (linux_to_wince_path env g p cap).length ≤ cap - 1 := by
  unfold linux_to_wince_path
  simp only
  split
  · exact join_length_le _ _ _
  · exact lstrcpynA_length_le _ _

theorem default_root_length : DEFAULT_ROOT.length = 24 := by decide

/-- After `ensure_default_root` the root is never empty. -/
theorem ensure_default_root_ne_nil (env : Option CStr) (g : CStr) :
    ensure_default_root env g ≠ [] := by
  unfold ensure_default_root
  split
  · assumption
  · have hd : lstrcpynA DEFAULT_ROOT ROOT_CAP ≠ [] := by decide
    cases env with
    | none => exact hd
    | some e =>
      simp only
      split
      · rename_i h
        rw [lstrcpynA_fits e ROOT_CAP h.2]
        intro h0
        rw [h0] at h
        simp at h
      · exact hd

/-- A root that fits the 512-byte global still fits after `ensure_default_root`. -/
theorem ensure_default_root_length (env : Option CStr) (g : CStr) (hg : g.length < ROOT_CAP) :
    (ensure_default_root env g).length < ROOT_CAP := by
  unfold ensure_default_root
  split
  · exact hg
  · have hd : (lstrcpynA DEFAULT_ROOT ROOT_CAP).length < ROOT_CAP := by decide
    cases env with
    | none => exact hd
    | some e =>
      simp only
      split
      · have := lstrcpynA_length_le e ROOT_CAP
        simp only [ROOT_CAP] at this ⊢
        omega
      · exact hd

theorem getLast?_cons_replicate (a b : Nat) (n : Nat) (h : 0 < n) :
    (a :: List.replicate n b).getLast? = some b := by
  rw [List.getLast?_eq_getElem?]
  simp only [List.length_cons, List.length_replicate, Nat.add_sub_cancel]
  obtain ⟨m, rfl⟩ : ∃ m, n = m + 1 := ⟨n - 1, by omega⟩
  rw [List.getElem?_cons_succ, List.getElem?_replicate]
  simp

/-! ## Resolving a virtual path -/

/-- C1, as stated, fails: for the empty path (which does not start with `'/'`)
under the working directory `/a` the result is `/a`, not `/a/`; and for the
1023-byte working directory `longCwd` and the path `b` the result has no room for
the separator and the path, so it is not `longCwd ++ "/" ++ "b"`. -/
theorem c1_counterexample :
    ((bytes "/a").getLast? ≠ some 47 ∧ ([] : CStr).head? ≠ some 47 ∧
      normalize_linux_path (bytes "/a") (some []) PATH_CAP = bytes "/a" ∧
      normalize_linux_path (bytes "/a") (some []) PATH_CAP ≠ bytes "/a" ++ [47] ++ []) ∧
    (longCwd.getLast? ≠ some 47 ∧ (bytes "b").head? ≠ some 47 ∧
      normalize_linux_path longCwd (some (bytes "b")) PATH_CAP
        ≠ longCwd ++ [47] ++ bytes "b") := by
  refine ⟨⟨by decide, by decide, by decide, by decide⟩, ?_, by decide, ?_⟩
  · rw [longCwd, getLast?_cons_replicate 47 97 1022 (by decide)]
    decide
  · intro h
    have hlen := normalize_length_le longCwd (some (bytes "b")) PATH_CAP
    rw [h] at hlen
    have hb : (bytes "b").length = 1 := by decide
    simp only [List.length_append, longCwd_length, List.length_singleton, hb, PATH_CAP] at hlen
    omega

/-- C1, amended: for a working directory `d` that begins with `'/'` and does not
end in `'/'`, and a non-empty relative path `p`, when `d`, the separator and `p`
fit the buffer (`|d| + 1 + |p| < cap`), `normalize_linux_path` yields
`d ++ "/" ++ p`. -/
theorem normalize_relative (d p : CStr) (cap : Nat)
    (hd : d.head? = some 47) (hlast : d.getLast? ≠ some 47)
    (hp : p ≠ []) (hrel : p.head? ≠ some 47)
    (hfit : d.length + 1 + p.length < cap) :
    normalize_linux_path d (some p) cap = d ++ [47] ++ p := by
  have hlen : 1 < d.length := by
    match d, hd, hlast with
    | [_], hd, hlast => simp at hd hlast; exact absurd hd hlast
    | _ :: _ :: _, _, _ => simp
  have hrel2 : ¬ charAt p 0 = 47 := by
    rw [charAt_zero p 47 hp]; exact hrel
  have hdfit : lstrcpynA d cap = d := lstrcpynA_fits d cap (by omega)
  have hlast2 : charAt d (d.length - 1) ≠ 47 := by
    rw [Ne, charAt_last d 47 (by omega)]; exact hlast
  unfold normalize_linux_path
  simp only [hp, hrel2, if_false, hdfit, lstrlenA]
  rw [if_pos ⟨hlen, hlast2⟩, if_pos (by omega)]
  rw [lstrcpynA_fits p _ (by simp only [List.length_append, List.length_singleton]; omega)]

/-- Witness for `normalize_relative`: `b` under `/a` resolves to `/a/b`. -/
theorem normalize_relative_witness :
    normalize_linux_path (bytes "/a") (some (bytes "b")) PATH_CAP = bytes "/a" ++ [47] ++ bytes "b" :=
  normalize_relative (bytes "/a") (bytes "b") PATH_CAP (by decide) (by decide) (by decide)
    (by decide) (by decide)

/-- C2, as stated, fails: the 1024-byte absolute path `longAbs` does not come back
unchanged from a 1024-byte buffer. -/
theorem c2_counterexample :
    longAbs.head? = some 47 ∧
    normalize_linux_path (bytes "/") (some longAbs) PATH_CAP ≠ longAbs := by
  refine ⟨rfl, ?_⟩
  intro h
  have hlen := normalize_length_le (bytes "/") (some longAbs) PATH_CAP
  rw [h, longAbs_length] at hlen
  simp only [PATH_CAP] at hlen
  omega

/-- C2, amended: an absolute path shorter than the buffer (`|p| < cap`) is returned
unchanged, whatever the working directory. -/
theorem normalize_absolute (d p : CStr) (cap : Nat)
    (habs : p.head? = some 47) (hfit : p.length < cap) :
    normalize_linux_path d (some p) cap = p := by
  have hp : p ≠ [] := by
    intro h; rw [h] at habs; simp at habs
  have h47 : charAt p 0 = 47 := (charAt_zero p 47 hp).2 habs
  unfold normalize_linux_path
  simp only [hp, h47, if_false, if_true]
  exact lstrcpynA_fits p cap hfit

/-- Witness for `normalize_absolute`: `/x/y` under `/a` stays `/x/y`. -/
theorem normalize_absolute_witness :
    normalize_linux_path (bytes "/a") (some (bytes "/x/y")) PATH_CAP = bytes "/x/y" :=
  normalize_absolute (bytes "/a") (bytes "/x/y") PATH_CAP (by decide) (by decide)

/-! ## Translating a virtual path to a native path -/

theorem to_backslashes_no_slash (s : CStr) : 47 ∉ to_backslashes s := by
  unfold to_backslashes
  intro h
  rw [List.mem_map] at h
  obtain ⟨c, _, hc⟩ := h
  split at hc <;> omega

theorem to_backslashes_length (s : CStr) : (to_backslashes s).length = s.length := by
  simp [to_backslashes]

/-- C3, as stated, fails: under the root `\` (one byte, set by `setroot \`) the
path `/a` becomes `\a`, not the root, a separator and `a`; and under the default
root the 1024-byte path `longAbs` does not fit the 1024-byte buffer. -/
theorem c3_counterexample :
    (strip_leading (bytes "/a") ≠ [] ∧
      linux_to_wince_path none (bytes "\\") (bytes "/a") PATH_CAP = bytes "\\a" ∧
      linux_to_wince_path none (bytes "\\") (bytes "/a") PATH_CAP
        ≠ ensure_default_root none (bytes "\\") ++ [92]
            ++ to_backslashes (strip_leading (bytes "/a"))) ∧
    (strip_leading longAbs ≠ [] ∧
      linux_to_wince_path none [] longAbs PATH_CAP
        ≠ ensure_default_root none [] ++ [92] ++ to_backslashes (strip_leading longAbs)) := by
  have hs : strip_leading longAbs = List.replicate 1023 97 := by
    unfold strip_leading longAbs
    rw [List.dropWhile_cons_of_pos (by decide)]
    apply List.dropWhile_eq_self_iff.2
    intro hl
    rw [List.get_eq_getElem, List.getElem_replicate]
    decide
  refine ⟨⟨by decide, by decide, by decide⟩, ?_, ?_⟩
  · rw [hs]
    intro h
    have := congrArg List.length h
    rw [List.length_replicate] at this
    simp at this
  · intro h
    have hlen := linux_to_wince_length_le none [] longAbs PATH_CAP
    rw [h, hs] at hlen
    simp only [List.length_append, List.length_singleton, to_backslashes_length,
      List.length_replicate, PATH_CAP] at hlen
    omega

/-- C3, amended: when the remainder after the leading `'/'` bytes is non-empty,
shorter than 1024 bytes, and root, separator and remainder fit the buffer, the
native path is the root, then one `'\\'` unless the root already ends in `'\\'`,
then the remainder with each `'/'` turned into `'\\'`. -/
theorem linux_to_wince_nonempty (env : Option CStr) (g p : CStr) (cap : Nat)
    (hrem : strip_leading p ≠ [])
    (hlen : (strip_leading p).length < PATH_CAP)
    (hfit : (ensure_default_root env g).length + 1 + (strip_leading p).length < cap) :
    linux_to_wince_path env g p cap
      = ensure_default_root env g
          ++ (if (ensure_default_root env g).getLast? = some 92 then [] else [92])
          ++ to_backslashes (strip_leading p) := by
  have hroot := ensure_default_root_ne_nil env g
  unfold linux_to_wince_path
  generalize ensure_default_root env g = root at hroot hfit ⊢
  have hpos : 0 < root.length := List.length_pos.2 hroot
  have htake : (strip_leading p).take (PATH_CAP - 1) = strip_leading p :=
    List.take_of_length_le (by simp only [PATH_CAP] at hlen ⊢; omega)
  have hrel : to_backslashes (strip_leading p) ≠ [] := by
    intro h
    have := to_backslashes_length (strip_leading p)
    rw [h] at this
    exact hrem (List.length_eq_zero.1 this.symm)
  simp only [htake, hrel, ne_eq, not_false_eq_true, if_true]
  unfold join_wince_path
  simp only [lstrcpynA_fits root cap (by omega), lstrlenA]
  by_cases hl : root.getLast? = some 92
  · have hc : ¬ (root.length > 0 ∧ charAt root (root.length - 1) ≠ 92) := by
      rw [Ne, charAt_last root 92 hpos]
      exact fun h => h.2 hl
    rw [if_neg hc, if_pos hl, List.append_nil]
    rw [lstrcpynA_fits _ _ (by rw [to_backslashes_length]; omega)]
  · have hc : root.length > 0 ∧ charAt root (root.length - 1) ≠ 92 := by
      rw [Ne, charAt_last root 92 hpos]
      exact ⟨hpos, hl⟩
    rw [if_pos hc, if_neg hl, if_pos (by omega)]
    rw [lstrcpynA_fits _ _ (by
      rw [to_backslashes_length]
      simp only [List.length_append, List.length_singleton]
      omega)]

/-- Witness for `linux_to_wince_nonempty`: under the default root, `/a/b` becomes
`\Storage Card\wslce-root\a\b`. -/
theorem linux_to_wince_nonempty_witness :
    linux_to_wince_path none [] (bytes "/a/b") PATH_CAP
      = ensure_default_root none []
          ++ (if (ensure_default_root none []).getLast? = some 92 then [] else [92])
          ++ to_backslashes (strip_leading (bytes "/a/b")) ∧
    linux_to_wince_path none [] (bytes "/a/b") PATH_CAP
      = bytes "\\Storage Card\\wslce-root\\a\\b" :=
  ⟨linux_to_wince_nonempty none [] (bytes "/a/b") PATH_CAP (by decide) (by decide) (by decide),
   by decide⟩

/-- C4: a virtual path made only of `'/'` bytes (among them `"/"` and the empty
path) translates to exactly the native root, for every root held by the 512-byte
global and every destination buffer of at least 512 bytes. -/
theorem linux_to_wince_root (env : Option CStr) (g p : CStr) (cap : Nat)
    (hp : ∀ c ∈ p, c = 47) (hg : g.length < ROOT_CAP) (hcap : ROOT_CAP ≤ cap) :
    linux_to_wince_path env g p cap = ensure_default_root env g := by
  have hs : strip_leading p = [] := by
    unfold strip_leading
    rw [List.dropWhile_eq_nil_iff]
    intro c hc
    simp [hp c hc]
  have hr := ensure_default_root_length env g hg
  unfold linux_to_wince_path
  simp only [hs, List.take_nil, to_backslashes, List.map_nil, ne_eq, not_true_eq_false, if_false]
  exact lstrcpynA_fits _ _ (by omega)

/-- Witness for `linux_to_wince_root`: `"/"` under the root `\Storage Card\x`. -/
theorem linux_to_wince_root_witness :
    linux_to_wince_path none (bytes "\\Storage Card\\x") (bytes "/") PATH_CAP
      = ensure_default_root none (bytes "\\Storage Card\\x") :=
  linux_to_wince_root none (bytes "\\Storage Card\\x") (bytes "/") PATH_CAP (by decide)
    (by decide) (by decide)

/-- C5, as stated, fails: after `setroot /sd` the root holds a `'/'`, and the
native path of `"/"` is that root. -/
theorem c5_counterexample :
    linux_to_wince_path none (bytes "/sd") (bytes "/") PATH_CAP = bytes "/sd" ∧
    47 ∈ linux_to_wince_path none (bytes "/sd") (bytes "/") PATH_CAP := by
  constructor <;> decide

/-- C5, amended: when the native root holds no `'/'`, no native path produced by
`linux_to_wince_path` holds one, for every virtual path and buffer size. -/
theorem linux_to_wince_no_slash (env : Option CStr) (g p : CStr) (cap : Nat)
    (hroot : 47 ∉ ensure_default_root env g) :
    47 ∉ linux_to_wince_path env g p cap := by
  unfold linux_to_wince_path
  generalize ensure_default_root env g = root at hroot
  have hcopy : 47 ∉ lstrcpynA root cap := fun h => hroot (lstrcpynA_subset root cap 47 h)
  simp only
  split
  · unfold join_wince_path
    simp only [lstrlenA]
    intro h
    rw [List.mem_append] at h
    rcases h with h | h
    · split at h
      · split at h
        · rw [List.mem_append, List.mem_singleton] at h
          rcases h with h | h
          · exact hcopy h
          · omega
        · exact hcopy h
      · exact hcopy h
    · exact to_backslashes_no_slash _ (lstrcpynA_subset _ _ 47 h)
  · exact hcopy

/-- Witness for `linux_to_wince_no_slash`: the default root and the path `/a/b`. -/
theorem linux_to_wince_no_slash_witness :
    47 ∉ linux_to_wince_path none [] (bytes "/a/b") PATH_CAP :=
  linux_to_wince_no_slash none [] (bytes "/a/b") PATH_CAP (by decide)

/-! ## Descriptor table -/

theorem FdTab.ext_slots (a b : FdTab) (h : a.slots = b.slots) : a = b := by
  cases a; cases b; cases h; rfl

theorem FdTab.get_set_eq (g : FdTab) (j h : Nat) (hj : j < MAX_FD) : (g.set j h).get j = h := by
  unfold FdTab.get FdTab.set
  have hlt : j < g.slots.length := by rw [g.size_eq]; exact hj
  simp [List.getD_eq_getElem?_getD, List.getElem?_set_self hlt]

theorem FdTab.get_set_ne (g : FdTab) (j m h : Nat) (hne : m ≠ j) :
    (g.set j h).get m = g.get m := by
  unfold FdTab.get FdTab.set
  simp [List.getD_eq_getElem?_getD, List.getElem?_set_ne (Ne.symm hne)]

theorem FdTab.get_empty (m : Nat) : FdTab.empty.get m = 0 := by
  unfold FdTab.get FdTab.empty
  rw [List.getD_eq_getElem?_getD, List.getElem?_replicate]
  split <;> rfl

/-- What the loop of `fd_alloc` does: it stops at the first empty slot at or after
`k`, or runs through all `n` slots without finding one. -/
theorem fd_alloc_loop_spec (g : FdTab) (h : Nat) : ∀ n k : Nat,
    (∃ j, k ≤ j ∧ j < k + n ∧ g.get j = 0 ∧ (∀ m, k ≤ m → m < j → g.get m ≠ 0) ∧
        fd_alloc_loop g h n k = ((j : Int), g.set j h)) ∨
    ((∀ m, k ≤ m → m < k + n → g.get m ≠ 0) ∧ fd_alloc_loop g h n k = (-1, g)) := by
  intro n
  induction n with
  | zero =>
    intro k
    right
    exact ⟨fun m h1 h2 => by omega, rfl⟩
  | succ n ih =>
    intro k
    by_cases hk : g.get k = 0
    · left
      refine ⟨k, le_refl k, by omega, hk, fun m h1 h2 => by omega, ?_⟩
      simp [fd_alloc_loop, hk]
    · rcases ih (k + 1) with ⟨j, h1, h2, h3, h4, h5⟩ | ⟨h1, h2⟩
      · left
        refine ⟨j, by omega, by omega, h3, ?_, ?_⟩
        · intro m hm1 hm2
          by_cases hmk : m = k
          · rw [hmk]; exact hk
          · exact h4 m (by omega) hm2
        · simp [fd_alloc_loop, hk, h5]
      · right
        refine ⟨?_, ?_⟩
        · intro m hm1 hm2
          by_cases hmk : m = k
          · rw [hmk]; exact hk
          · exact h1 m (by omega) (by omega)
        · simp [fd_alloc_loop, hk, h2]

/-- `fd_alloc` either takes the first empty slot among `3 .. 31` or finds none. -/
theorem fd_alloc_spec (g : FdTab) (h : Nat) :
    (∃ j, 3 ≤ j ∧ j < MAX_FD ∧ g.get j = 0 ∧ (∀ m, 3 ≤ m → m < j → g.get m ≠ 0) ∧
        fd_alloc g h = ((j : Int), g.set j h)) ∨
    ((∀ m, 3 ≤ m → m < MAX_FD → g.get m ≠ 0) ∧ fd_alloc g h = (-1, g)) := by
  rcases fd_alloc_loop_spec g h (MAX_FD - 3) 3 with ⟨j, h1, h2, h3, h4, h5⟩ | ⟨h1, h2⟩
  · left
    exact ⟨j, h1, by simp only [MAX_FD] at h2 ⊢; omega, h3, h4, h5⟩
  · right
    exact ⟨fun m hm1 hm2 => h1 m hm1 (by simp only [MAX_FD] at hm2 ⊢; omega), h2⟩

theorem fd_get_of_slot (g : FdTab) (j h : Nat) (hj : j < MAX_FD) (hh : h ≠ 0)
    (hs : g.get j = h) : fd_get g (j : Int) = h := by
  unfold fd_get
  have h1 : ¬ ((j : Int) < 0 ∨ (j : Int) ≥ (MAX_FD : Int)) := by
    simp only [MAX_FD] at hj ⊢
    omega
  rw [if_neg h1, Int.toNat_ofNat, hs, if_pos hh]

theorem fd_get_after_free (g : FdTab) (j : Nat) (hj : j < MAX_FD) :
    fd_get (fd_free g (j : Int)) (j : Int) = INVALID_HANDLE_VALUE := by
  unfold fd_get fd_free
  have h1 : ¬ ((j : Int) < 0 ∨ (j : Int) ≥ (MAX_FD : Int)) := by
    simp only [MAX_FD] at hj ⊢
    omega
  have h2 : (j : Int) ≥ 0 ∧ (j : Int) < (MAX_FD : Int) := by
    simp only [MAX_FD] at hj ⊢
    omega
  rw [if_neg h1, if_pos h2, Int.toNat_ofNat, FdTab.get_set_eq g j 0 hj]
  simp

/-- A slot holding a non-null handle survives every call other than `fd_free` of
that slot. -/
theorem FdOp.apply_keeps (g : FdTab) (j h : Nat) (op : FdOp) (hh : h ≠ 0)
    (hs : g.get j = h) (hop : op ≠ FdOp.free (j : Int)) : (op.apply g).get j = h := by
  cases op with
  | alloc h1 =>
    show (fd_alloc g h1).2.get j = h
    rcases fd_alloc_spec g h1 with ⟨j1, _, _, h3, _, h5⟩ | ⟨_, h2⟩
    · rw [h5]
      have hne : j ≠ j1 := by
        intro he
        rw [he, h3] at hs
        exact hh hs.symm
      rw [FdTab.get_set_ne g j1 j h1 hne, hs]
    · rw [h2]; exact hs
  | free fd =>
    show (fd_free g fd).get j = h
    unfold fd_free
    split
    · rename_i hr
      have hne : j ≠ fd.toNat := by
        intro he
        apply hop
        rw [he, Int.toNat_of_nonneg hr.1]
      rw [FdTab.get_set_ne g fd.toNat j 0 hne, hs]
    · exact hs

theorem run_ops_keeps (j h : Nat) (hh : h ≠ 0) : ∀ (ops : List FdOp) (g : FdTab),
    g.get j = h → (∀ op ∈ ops, op ≠ FdOp.free (j : Int)) → (run_ops g ops).get j = h := by
  intro ops
  induction ops with
  | nil => intro g hs _; exact hs
  | cons op rest ih =>
    intro g hs hops
    unfold run_ops
    rw [List.foldl_cons]
    exact ih (op.apply g)
      (FdOp.apply_keeps g j h op hh hs (hops op (List.mem_cons_self _ _)))
      (fun o ho => hops o (List.mem_cons_of_mem _ ho))

/-- C7, as stated, fails for the null handle: on the empty table `fd_alloc(0)`
returns index 3, yet `fd_get(3)` is `INVALID_HANDLE_VALUE`, not the handle 0. -/
theorem c7_counterexample :
    fd_alloc FdTab.empty 0 = (3, FdTab.empty) ∧
    fd_get (fd_alloc FdTab.empty 0).2 3 = INVALID_HANDLE_VALUE ∧
    fd_get (fd_alloc FdTab.empty 0).2 3 ≠ 0 := by
  refine ⟨by decide, by decide, by decide⟩

/-- C7, amended: for every table and every non-null handle `h`, if `fd_alloc(h)`
returns an index `i` (not `-1`), then after any further calls other than
`fd_free(i)` (allocations of any handles, releases of any other descriptors)
`fd_get(i)` is `h`, and after `fd_free(i)` it is `INVALID_HANDLE_VALUE`. -/
theorem fd_alloc_get_free (g g1 : FdTab) (h : Nat) (i : Int) (ops : List FdOp)
    (hh : h ≠ 0) (ha : fd_alloc g h = (i, g1)) (hi : 0 ≤ i)
    (hops : ∀ op ∈ ops, op ≠ FdOp.free i) :
    fd_get (run_ops g1 ops) i = h ∧
    fd_get (fd_free (run_ops g1 ops) i) i = INVALID_HANDLE_VALUE := by
  rcases fd_alloc_spec g h with ⟨j, _, h2, _, _, h5⟩ | ⟨_, h2⟩
  · rw [h5] at ha
    have hij : i = (j : Int) := (congrArg Prod.fst ha).symm
    have hg1 : g1 = g.set j h := (congrArg Prod.snd ha).symm
    subst hij
    subst hg1
    have hkeep := run_ops_keeps j h hh ops (g.set j h) (FdTab.get_set_eq g j h h2) hops
    exact ⟨fd_get_of_slot _ j h h2 hh hkeep, fd_get_after_free _ j h2⟩
  · rw [h2] at ha
    have hij : i = -1 := (congrArg Prod.fst ha).symm
    omega

/-- Witness for `fd_alloc_get_free`: handle 7 allocated on the empty table, then
another allocation and the release of descriptor 4. -/
theorem fd_alloc_get_free_witness :
    fd_get (run_ops (FdTab.empty.set 3 7) [FdOp.alloc 9, FdOp.free 4]) 3 = 7 ∧
    fd_get (fd_free (run_ops (FdTab.empty.set 3 7) [FdOp.alloc 9, FdOp.free 4]) 3) 3
      = INVALID_HANDLE_VALUE :=
  fd_alloc_get_free FdTab.empty (FdTab.empty.set 3 7) 7 3 [FdOp.alloc 9, FdOp.free 4]
    (by decide) (by decide) (by decide) (by decide)

theorem filledTo_empty : FilledTo 0 FdTab.empty :=
  ⟨fun m _ => FdTab.get_empty m, fun m h1 h2 => by omega, fun m _ _ => FdTab.get_empty m⟩

/-- On a table filled up to `k < 29` slots, `fd_alloc` of a non-null handle takes
slot `3 + k`. -/
theorem fd_alloc_step (g : FdTab) (k h : Nat) (hinv : FilledTo k g) (hk : k < MAX_FD - 3)
    (hh : h ≠ 0) :
    fd_alloc g h = (((3 + k : Nat) : Int), g.set (3 + k) h) ∧
    FilledTo (k + 1) (g.set (3 + k) h) := by
  obtain ⟨hlow, hfull, hfree⟩ := hinv
  simp only [MAX_FD] at hk
  have hslot : g.get (3 + k) = 0 := hfree (3 + k) (le_refl _) (by simp only [MAX_FD]; omega)
  rcases fd_alloc_spec g h with ⟨j, h1, h2, h3, h4, h5⟩ | ⟨h1, _⟩
  · have hj : j = 3 + k := by
      by_contra hne
      rcases Nat.lt_or_gt_of_ne hne with hlt | hgt
      · exact hfull j h1 hlt h3
      · exact h4 (3 + k) (by omega) hgt hslot
    subst hj
    refine ⟨h5, ?_, ?_, ?_⟩
    · intro m hm
      rw [FdTab.get_set_ne g (3 + k) m h (by omega)]
      exact hlow m hm
    · intro m hm1 hm2
      by_cases hmk : m = 3 + k
      · rw [hmk, FdTab.get_set_eq g (3 + k) h h2]; exact hh
      · rw [FdTab.get_set_ne g (3 + k) m h hmk]
        exact hfull m hm1 (by omega)
    · intro m hm1 hm2
      rw [FdTab.get_set_ne g (3 + k) m h (by omega)]
      exact hfree m (by omega) hm2
  · exact absurd hslot (h1 (3 + k) (by omega) (by simp only [MAX_FD]; omega))

/-- On a table with all of slots `3 .. 31` occupied, `fd_alloc` fails and leaves
the table alone. -/
theorem fd_alloc_full (g : FdTab) (h : Nat) (hinv : FilledTo (MAX_FD - 3) g) :
    fd_alloc g h = (-1, g) := by
  rcases fd_alloc_spec g h with ⟨j, h1, h2, h3, _, _⟩ | ⟨_, h2⟩
  · exact absurd h3 (hinv.2.1 j h1 (by simp only [MAX_FD] at h2 ⊢; omega))
  · exact h2

theorem alloc_all_spec : ∀ (hs : List Nat) (k : Nat) (g : FdTab), FilledTo k g →
    k + hs.length ≤ MAX_FD - 3 → (∀ h ∈ hs, h ≠ 0) →
    (alloc_all g hs).1 = (List.range' (3 + k) hs.length).map Int.ofNat ∧
    FilledTo (k + hs.length) (alloc_all g hs).2 := by
  intro hs
  induction hs with
  | nil => intro k g hinv _ _; exact ⟨rfl, hinv⟩
  | cons h t ih =>
    intro k g hinv hlen hnz
    rw [List.length_cons] at hlen
    obtain ⟨hstep, hinv1⟩ := fd_alloc_step g k h hinv (by omega) (hnz h (List.mem_cons_self _ _))
    obtain ⟨hres, hinv2⟩ := ih (k + 1) (g.set (3 + k) h) hinv1 (by omega)
      (fun x hx => hnz x (List.mem_cons_of_mem _ hx))
    simp only [alloc_all, hstep, List.length_cons, List.range'_succ, List.map_cons]
    refine ⟨?_, ?_⟩
    · rw [hres]
      have e : 3 + (k + 1) = 3 + k + 1 := by omega
      rw [e]
      rfl
    · have e : k + (t.length + 1) = k + 1 + t.length := by omega
      rw [e]
      exact hinv2

/-- C8, as stated, fails when the handles are null: thirty `fd_alloc(0)` calls from
the empty table all return descriptor 3, and leave the table empty. -/
theorem c8_counterexample :
    (alloc_all FdTab.empty (List.replicate 29 0)).1 = List.replicate 29 3 ∧
    fd_alloc (alloc_all FdTab.empty (List.replicate 29 0)).2 0 = (3, FdTab.empty) := by
  constructor <;> decide

/-- C8, amended: from the empty 32-slot table, 29 consecutive `fd_alloc` calls with
non-null handles return 3, 4, ..., 31 in that order, each being the first empty
slot at that moment; slots 0, 1, 2 stay empty; a 30th call returns `-1` and leaves
the table unchanged. -/
theorem fd_alloc_exhaustion (hs : List Nat) (h30 : Nat) (hlen : hs.length = MAX_FD - 3)
    (hnz : ∀ h ∈ hs, h ≠ 0) :
    (alloc_all FdTab.empty hs).1 = (List.range' 3 (MAX_FD - 3)).map Int.ofNat ∧
    (∀ pre h post, hs = pre ++ h :: post →
      ∃ j : Nat, 3 ≤ j ∧ (alloc_all FdTab.empty pre).2.get j = 0 ∧
        (∀ m, 3 ≤ m → m < j → (alloc_all FdTab.empty pre).2.get m ≠ 0) ∧
        fd_alloc (alloc_all FdTab.empty pre).2 h
          = ((j : Int), (alloc_all FdTab.empty pre).2.set j h)) ∧
    (∀ m, m < 3 → (alloc_all FdTab.empty hs).2.get m = 0) ∧
    fd_alloc (alloc_all FdTab.empty hs).2 h30 = (-1, (alloc_all FdTab.empty hs).2) := by
  obtain ⟨hres, hinv⟩ := alloc_all_spec hs 0 FdTab.empty filledTo_empty (by omega) hnz
  rw [Nat.zero_add, hlen] at hinv
  refine ⟨?_, ?_, hinv.1, fd_alloc_full _ h30 hinv⟩
  · rw [hres, hlen]
  · intro pre h post hsplit
    have hl : pre.length + (post.length + 1) = MAX_FD - 3 := by
      rw [← hlen, hsplit, List.length_append, List.length_cons]
    have hpre : ∀ x ∈ pre, x ≠ 0 := fun x hx =>
      hnz x (by rw [hsplit]; exact List.mem_append_left _ hx)
    have hh : h ≠ 0 := hnz h (by rw [hsplit]; simp)
    obtain ⟨_, hinvp⟩ := alloc_all_spec pre 0 FdTab.empty filledTo_empty (by omega) hpre
    rw [Nat.zero_add] at hinvp
    obtain ⟨hstep, _⟩ := fd_alloc_step _ pre.length h hinvp (by omega) hh
    refine ⟨3 + pre.length, by omega, ?_, ?_, hstep⟩
    · exact hinvp.2.2 _ (le_refl _) (by simp only [MAX_FD] at hl ⊢; omega)
    · intro m hm1 hm2
      exact hinvp.2.1 m hm1 hm2

/-- Witness for `fd_alloc_exhaustion`: 29 allocations of handle 5, then one of
handle 6; the returned descriptors are spelled out. -/
theorem fd_alloc_exhaustion_witness :
    (alloc_all FdTab.empty (List.replicate 29 5)).1
      = [3, 4, 5, 6, 7, 8, 9, 10, 11, 12, 13, 14, 15, 16, 17, 18, 19, 20, 21, 22, 23, 24, 25,
         26, 27, 28, 29, 30, 31] ∧
    fd_alloc (alloc_all FdTab.empty (List.replicate 29 5)).2 6
      = (-1, (alloc_all FdTab.empty (List.replicate 29 5)).2) :=
  have w := fd_alloc_exhaustion (List.replicate 29 5) 6 (by decide) (by decide)
  ⟨w.1.trans (by decide), w.2.2.2⟩

/-! ## Open flags -/

theorem and_two_pow_ne_zero (n i : Nat) : n &&& 2 ^ i ≠ 0 ↔ n.testBit i = true := by
  constructor
  · intro h
    by_contra hb
    apply h
    apply Nat.eq_of_testBit_eq
    intro j
    rw [Nat.testBit_and, Nat.testBit_two_pow, Nat.zero_testBit]
    by_cases hij : i = j
    · subst hij; simp [hb]
    · simp [hij]
  · intro hb h
    have := congrArg (fun x => Nat.testBit x i) h
    simp only [Nat.testBit_and, Nat.testBit_two_pow_self, Nat.zero_testBit, hb] at this
    exact absurd this (by decide)

/-- The value of `map_creation` read off bits 6 and 9. -/
theorem map_creation_bits (o : Nat) :
    map_creation o =
      (if o.testBit 6 then (if o.testBit 9 then CREATE_ALWAYS else OPEN_ALWAYS)
       else if o.testBit 9 then TRUNCATE_EXISTING else OPEN_EXISTING) := by
  have h6 := and_two_pow_ne_zero o 6
  have h9 := and_two_pow_ne_zero o 9
  norm_num at h6 h9
  unfold map_creation
  by_cases b6 : o.testBit 6 = true <;> by_cases b9 : o.testBit 9 = true <;>
    simp [b6, b9, h6, h9]

/-- C9: `map_creation` is decided by bit 6 (create) and bit 9 (truncate) alone:
both set give `CREATE_ALWAYS`, create only `OPEN_ALWAYS`, truncate only
`TRUNCATE_EXISTING`, neither `OPEN_EXISTING`; flipping any of the access-mode
bits 0-1 or the append bit 10 (any part `a &&& 0x403` of a mask) leaves the
result unchanged, as does any other word with the same bits 6 and 9. -/
theorem map_creation_table (o : Nat) :
    (o.testBit 6 = true ∧ o.testBit 9 = true → map_creation o = CREATE_ALWAYS) ∧
    (o.testBit 6 = true ∧ o.testBit 9 = false → map_creation o = OPEN_ALWAYS) ∧
    (o.testBit 6 = false ∧ o.testBit 9 = true → map_creation o = TRUNCATE_EXISTING) ∧
    (o.testBit 6 = false ∧ o.testBit 9 = false → map_creation o = OPEN_EXISTING) ∧
    (∀ a : Nat, map_creation (o ^^^ (a &&& 0x403)) = map_creation o) ∧
    (∀ o1 : Nat, o1.testBit 6 = o.testBit 6 → o1.testBit 9 = o.testBit 9 →
      map_creation o1 = map_creation o) := by
  refine ⟨?_, ?_, ?_, ?_, ?_, ?_⟩
  · rintro ⟨h6, h9⟩; rw [map_creation_bits, h6, h9]; rfl
  · rintro ⟨h6, h9⟩; rw [map_creation_bits, h6, h9]; rfl
  · rintro ⟨h6, h9⟩; rw [map_creation_bits, h6, h9]; rfl
  · rintro ⟨h6, h9⟩; rw [map_creation_bits, h6, h9]; rfl
  · intro a
    have m6 : Nat.testBit 0x403 6 = false := by decide
    have m9 : Nat.testBit 0x403 9 = false := by decide
    rw [map_creation_bits, map_creation_bits o]
    simp only [Nat.testBit_xor, Nat.testBit_and, m6, m9, Bool.and_false, Bool.xor_false]
  · intro o1 h6 h9
    rw [map_creation_bits, map_creation_bits o, h6, h9]

/-- Witness for `map_creation_table`: the four combinations at concrete flag words,
with access-mode and append bits set alongside. -/
theorem map_creation_table_witness :
    map_creation 0x641 = CREATE_ALWAYS ∧ map_creation 0x41 = OPEN_ALWAYS ∧
    map_creation 0x602 = TRUNCATE_EXISTING ∧ map_creation 0x401 = OPEN_EXISTING :=
  ⟨(map_creation_table 0x641).1 (by decide),
   (map_creation_table 0x41).2.1 (by decide),
   (map_creation_table 0x602).2.2.1 (by decide),
   (map_creation_table 0x401).2.2.2.1 (by decide)⟩


theorem head?_take_pos (l : CStr) (n : Nat) (hn : 0 < n) : (l.take n).head? = l.head? := by
  rw [List.head?_take, if_neg (by omega)]

theorem lstrcpynA_head (s : CStr) (cap : Nat) (hcap : 1 < cap) :
    (lstrcpynA s cap).head? = s.head? :=
  head?_take_pos s (cap - 1) (by omega)

/-- A resolved path begins with `'/'` when the working directory does. -/
theorem normalize_head (cwd : CStr) (inp : Option CStr) (cap : Nat) (hcap : 1 < cap)
    (h : cwd.head? = some 47) : (normalize_linux_path cwd inp cap).head? = some 47 := by
  have hc : (lstrcpynA cwd cap).head? = some 47 := by rw [lstrcpynA_head cwd cap hcap, h]
  unfold normalize_linux_path
  cases inp with
  | none => exact hc
  | some p =>
    simp only
    split
    · exact hc
    · rename_i hp
      split
      · rename_i h47
        rw [lstrcpynA_head p cap hcap]
        exact (charAt_zero p 47 hp).1 h47
      · simp only [lstrlenA]
        split
        · split
          · rw [List.head?_append, List.head?_append, hc]; rfl
          · rw [List.head?_append, hc]; rfl
        · rw [List.head?_append, hc]; rfl

/-- Every `ce_chdir` call, whatever its target and whatever the native lookup
answers, leaves a working directory that begins with `'/'`. -/
theorem ce_chdir_head (env : Option CStr) (find : CStr → Option Nat) (G : Globals)
    (path : Option CStr) (h : G.g_cwd_utf8.head? = some 47) :
    (ce_chdir env find G path).2.g_cwd_utf8.head? = some 47 := by
  have hn := normalize_head G.g_cwd_utf8 path PATH_CAP (by decide) h
  unfold ce_chdir
  simp only
  split
  · exact h
  · split
    · exact h
    · have hne : normalize_linux_path G.g_cwd_utf8 path PATH_CAP ≠ [] := by
        intro h0; rw [h0] at hn; simp at hn
      simp only [hne, if_false, lstrlenA]
      rw [lstrcpynA_head _ CWD_CAP (by decide)]
      split
      · rename_i hl
        rw [head?_take_pos _ _ (by omega)]
        exact hn
      · exact hn

/-- In every state reached from the initial one by `ce_chdir` calls the working
directory is non-empty and begins with `'/'`. -/
theorem chdir_run_head : ∀ (calls : List ChdirCall) (G : Globals),
    G.g_cwd_utf8.head? = some 47 →
    (chdir_run G calls).g_cwd_utf8 ≠ [] ∧ (chdir_run G calls).g_cwd_utf8.head? = some 47 := by
  intro calls
  induction calls with
  | nil =>
    intro G h
    refine ⟨?_, h⟩
    intro h0
    have h1 : G.g_cwd_utf8 = [] := h0
    rw [h1] at h
    simp at h
  | cons c rest ih =>
    intro G h
    exact ih _ (ce_chdir_head c.env c.find G c.path h)

/-- C6, at the failing input: from the initial state, `cd ///` in a system where
the root directory exists succeeds and leaves the working directory `//`, which
ends in `'/'` without being `"/"`; only one trailing `'/'` is removed. -/
theorem ce_chdir_trailing_slash :
    CwdInv Globals.init.g_cwd_utf8 ∧
    ce_chdir none rootOnly Globals.init (some (bytes "///"))
      = (0, ⟨DEFAULT_ROOT, bytes "//", FdTab.empty⟩) ∧
    ¬ CwdInv (chdir_run Globals.init [⟨some (bytes "///"), none, rootOnly⟩]).g_cwd_utf8 := by
  refine ⟨by decide, by decide, by decide⟩

/-! ## Copying a file -/

/-- C10, at the failing input: with a 2-byte source `ab` and an existing 4-byte
destination `wxyz`, `copy_file` returns 0 and the destination holds `abyz`: it is
opened with `0x41`, which `map_creation` turns into `OPEN_ALWAYS`, so the old
tail survives. -/
theorem copy_file_keeps_old_tail :
    map_creation 0x41 = OPEN_ALWAYS ∧
    (copy_file simNative none 4 (SimFs.withFiles [(srcPath, bytes "ab"), (dstPath, bytes "wxyz")])
        Globals.init (bytes "/s") (bytes "/d")).map
      (fun r => (r.1, r.2.1.content srcPath, r.2.1.content dstPath))
      = some (0, some (bytes "ab"), some (bytes "abyz")) := by
  constructor <;> decide

/-- A read error is taken for the end of the source: when `ReadFile` fails after
the first chunk of a 2049-byte source, `copy_file` still returns 0 and the
destination holds only the first 2048 bytes. -/
theorem copy_file_read_error_reported_as_success :
    (copy_file faultyRead none 4 (SimFs.withFiles [(srcPath, List.replicate 2049 7)])
        Globals.init (bytes "/s") (bytes "/d")).map
      (fun r => (r.1, r.2.1.content dstPath))
      = some (0, some (List.replicate 2048 7)) := by
  decide!

/-- With no destination beforehand and a working disk, a 5000-byte source is copied
in chunks of 2048, 2048 and 904 bytes; the copy is identical, `copy_file` returns
0, no handle stays open and the descriptor table is empty again. -/
theorem copy_file_5000_fresh :
    (copy_file simNative none 4 (SimFs.withFiles [(srcPath, List.replicate 5000 7)])
        Globals.init (bytes "/s") (bytes "/d")).map
      (fun r => (r.1, r.2.1.content dstPath, r.2.1.handles, r.2.2.g_fdtab))
      = some (0, some (List.replicate 5000 7), [], FdTab.empty) := by
  decide!

/-! ## Descriptors and handles across `copy_file` -/

theorem FdTab.ext_get (a b : FdTab) (h : ∀ m, m < MAX_FD → a.get m = b.get m) : a = b := by
  apply FdTab.ext_slots
  apply List.ext_getElem
  · rw [a.size_eq, b.size_eq]
  · intro n h1 h2
    have hn := h n (by rw [← a.size_eq]; exact h1)
    unfold FdTab.get at hn
    rw [List.getD_eq_getElem?_getD, List.getD_eq_getElem?_getD, List.getElem?_eq_getElem h1,
      List.getElem?_eq_getElem h2] at hn
    exact hn

/-- Filling an empty slot and clearing it again gives the table back. -/
theorem FdTab.set_clear (g : FdTab) (i h : Nat) (hi : i < MAX_FD) (h0 : g.get i = 0) :
    (g.set i h).set i 0 = g := by
  apply FdTab.ext_get
  intro m _
  by_cases hm : m = i
  · rw [hm, FdTab.get_set_eq _ i 0 hi, h0]
  · rw [FdTab.get_set_ne _ i m 0 hm, FdTab.get_set_ne _ i m h hm]

/-- Filling two empty slots and clearing both again gives the table back. -/
theorem FdTab.set_clear_two (g : FdTab) (i j hs hd : Nat) (hi : i < MAX_FD) (hj : j < MAX_FD)
    (h0i : g.get i = 0) (h0j : g.get j = 0) :
    (((g.set i hs).set j hd).set i 0).set j 0 = g := by
  apply FdTab.ext_get
  intro m _
  by_cases hmj : m = j
  · rw [hmj, FdTab.get_set_eq _ j 0 hj, h0j]
  · rw [FdTab.get_set_ne _ j m 0 hmj]
    by_cases hmi : m = i
    · rw [hmi, FdTab.get_set_eq _ i 0 hi, h0i]
    · rw [FdTab.get_set_ne _ i m 0 hmi, FdTab.get_set_ne _ j m hd hmj,
        FdTab.get_set_ne _ i m hs hmi]

theorem fd_free_cast (g : FdTab) (j : Nat) (hj : j < MAX_FD) :
    fd_free g (j : Int) = g.set j 0 := by
  unfold fd_free
  have h2 : (j : Int) ≥ 0 ∧ (j : Int) < (MAX_FD : Int) := by
    simp only [MAX_FD] at hj ⊢
    omega
  rw [if_pos h2, Int.toNat_ofNat]

/-- Reading through the recording layer leaves both records alone. -/
theorem ce_read_traced {σ : Type} (api : Native σ) (t : Traced σ) (G : Globals) (fd : Int)
    (len : Nat) :
    (ce_read (traced api) t G fd len).2.2.opened = t.opened ∧
    (ce_read (traced api) t G fd len).2.2.closed = t.closed := by
  unfold ce_read
  simp only
  split
  · exact ⟨rfl, rfl⟩
  · split
    · rename_i heq
      have h2 := congrArg Prod.snd heq
      simp only [traced] at h2
      rw [← h2]
      exact ⟨rfl, rfl⟩
    · rename_i heq
      have h2 := congrArg Prod.snd heq
      simp only [traced] at h2
      rw [← h2]
      exact ⟨rfl, rfl⟩

/-- Writing through the recording layer leaves both records alone. -/
theorem ce_write_traced {σ : Type} (api : Native σ) (t : Traced σ) (G : Globals) (fd : Int)
    (buf : List Nat) (len : Nat) :
    (ce_write (traced api) t G fd buf len).2.opened = t.opened ∧
    (ce_write (traced api) t G fd buf len).2.closed = t.closed := by
  unfold ce_write
  simp only
  split
  · exact ⟨rfl, rfl⟩
  · split
    · rename_i heq
      have h2 := congrArg Prod.snd heq
      simp only [traced] at h2
      rw [← h2]
      exact ⟨rfl, rfl⟩
    · rename_i heq
      have h2 := congrArg Prod.snd heq
      simp only [traced] at h2
      rw [← h2]
      exact ⟨rfl, rfl⟩

/-- `ce_close` never opens a handle. -/
theorem ce_close_traced_opened {σ : Type} (api : Native σ) (t : Traced σ) (G : Globals)
    (fd : Int) : (ce_close (traced api) t G fd).2.1.opened = t.opened := by
  unfold ce_close
  simp only
  split <;> rfl

/-- `ce_close` on a descriptor whose slot holds a handle other than 0 and
`INVALID_HANDLE_VALUE` closes that handle and clears the slot. -/
theorem ce_close_traced_ok {σ : Type} (api : Native σ) (t : Traced σ) (G : Globals)
    (j h : Nat) (hj : j < MAX_FD) (hs : G.g_fdtab.get j = h) (h0 : h ≠ 0)
    (hinv : h ≠ INVALID_HANDLE_VALUE) :
    (ce_close (traced api) t G (j : Int)).2.1.closed = t.closed ++ [h] ∧
    (ce_close (traced api) t G (j : Int)).2.2.g_fdtab = G.g_fdtab.set j 0 := by
  unfold ce_close
  simp only
  rw [fd_get_of_slot G.g_fdtab j h hj h0 hs, if_neg hinv, fd_free_cast _ j hj]
  exact ⟨rfl, rfl⟩

/-- What `ce_open` does to the table and the records: either it fails, leaving the
table alone and having closed whatever it opened, or it stores a freshly opened
handle in a slot that was empty. -/
theorem ce_open_traced {σ : Type} (api : Native σ) (env : Option CStr) (t : Traced σ)
    (G : Globals) (path : CStr) (oflags : Nat) :
    ((ce_open (traced api) env t G path oflags).1 = -1 ∧
      (ce_open (traced api) env t G path oflags).2.2.g_fdtab = G.g_fdtab ∧
      ∃ o, (ce_open (traced api) env t G path oflags).2.1.opened = t.opened ++ o ∧
        (ce_open (traced api) env t G path oflags).2.1.closed = t.closed ++ o) ∨
    (∃ j h : Nat, (ce_open (traced api) env t G path oflags).1 = (j : Int) ∧ j < MAX_FD ∧
      h ≠ INVALID_HANDLE_VALUE ∧ G.g_fdtab.get j = 0 ∧
      (ce_open (traced api) env t G path oflags).2.2.g_fdtab = G.g_fdtab.set j h ∧
      (ce_open (traced api) env t G path oflags).2.1.opened = t.opened ++ [h] ∧
      (ce_open (traced api) env t G path oflags).2.1.closed = t.closed) := by
  unfold ce_open
  simp only [traced]
  generalize api.CreateFileW t.world (linux_to_wince_path env G.g_root_utf8 path PATH_CAP)
    (map_oflags oflags) (map_creation oflags) = r
  by_cases hr : r.1 = INVALID_HANDLE_VALUE
  · left
    rw [if_pos hr]
    refine ⟨rfl, rfl, [], ?_, ?_⟩
    · simp [hr]
    · simp
  · rw [if_neg hr]
    rcases fd_alloc_spec G.g_fdtab r.1 with ⟨j, _, h2, h3, _, h5⟩ | ⟨_, h2⟩
    · right
      have hnn : ¬ ((j : Int) < 0) := by omega
      refine ⟨j, r.1, ?_, h2, hr, h3, ?_, ?_, ?_⟩ <;>
        (simp only [h5, hnn, if_false]; split <;> simp [hr])
    · left
      have hneg : ((-1 : Int) < 0) := by decide
      simp only [h2, hneg, if_true]
      refine ⟨?_, ?_, [r.1], ?_, ?_⟩ <;> first | trivial | rfl | simp [hr]

/-- The copy loop never opens a handle. -/
theorem copy_loop_traced_opened {σ : Type} (api : Native σ) (G : Globals) (sfd dfd : Int) :
    ∀ (fuel : Nat) (t : Traced σ) (r : Int × Traced σ × Globals),
      copy_loop (traced api) G sfd dfd fuel t = some r → r.2.1.opened = t.opened := by
  intro fuel
  induction fuel with
  | zero => intro t r h; simp [copy_loop] at h
  | succ n ih =>
    intro t r h
    have hrd := (ce_read_traced api t G sfd COPY_CHUNK).1
    unfold copy_loop at h
    simp only at h
    split at h
    · have hwr := (ce_write_traced api (ce_read (traced api) t G sfd COPY_CHUNK).2.2 G dfd
        (ce_read (traced api) t G sfd COPY_CHUNK).2.1
        (ce_read (traced api) t G sfd COPY_CHUNK).1.toNat).1
      split at h
      · injection h with h
        rw [← h]
        simp only
        rw [ce_close_traced_opened, ce_close_traced_opened, hwr, hrd]
      · rw [ih _ r h, hwr, hrd]
    · injection h with h
      rw [← h]
      simp only
      rw [ce_close_traced_opened, ce_close_traced_opened, hrd]

/-- The two `ce_close` calls that end `copy_file` close both handles and clear
both slots. -/
theorem close_both_traced {σ : Type} (api : Native σ) (G : Globals) (i j hs hd : Nat)
    (hi : i < MAX_FD) (hj : j < MAX_FD) (hij : i ≠ j)
    (hsi : G.g_fdtab.get i = hs) (hsj : G.g_fdtab.get j = hd)
    (hs0 : hs ≠ 0) (hd0 : hd ≠ 0)
    (hsI : hs ≠ INVALID_HANDLE_VALUE) (hdI : hd ≠ INVALID_HANDLE_VALUE) (t : Traced σ) :
    (ce_close (traced api) (ce_close (traced api) t G (i : Int)).2.1
        (ce_close (traced api) t G (i : Int)).2.2 (j : Int)).2.1.closed = t.closed ++ [hs, hd] ∧
    (ce_close (traced api) (ce_close (traced api) t G (i : Int)).2.1
        (ce_close (traced api) t G (i : Int)).2.2 (j : Int)).2.2.g_fdtab
      = (G.g_fdtab.set i 0).set j 0 := by
  obtain ⟨c1, g1⟩ := ce_close_traced_ok api t G i hs hi hsi hs0 hsI
  have hslot : (ce_close (traced api) t G (i : Int)).2.2.g_fdtab.get j = hd := by
    rw [g1, FdTab.get_set_ne _ i j 0 (Ne.symm hij), hsj]
  obtain ⟨c2, g2⟩ := ce_close_traced_ok api (ce_close (traced api) t G (i : Int)).2.1
    (ce_close (traced api) t G (i : Int)).2.2 j hd hj hslot hd0 hdI
  rw [c2, g2, c1, g1]
  exact ⟨by simp, rfl⟩

/-- With both descriptors holding their handles, the copy loop, if it ends, ends
with both handles closed and both slots cleared. -/
theorem copy_loop_traced_closed {σ : Type} (api : Native σ) (G : Globals) (i j hs hd : Nat)
    (hi : i < MAX_FD) (hj : j < MAX_FD) (hij : i ≠ j)
    (hsi : G.g_fdtab.get i = hs) (hsj : G.g_fdtab.get j = hd)
    (hs0 : hs ≠ 0) (hd0 : hd ≠ 0)
    (hsI : hs ≠ INVALID_HANDLE_VALUE) (hdI : hd ≠ INVALID_HANDLE_VALUE) :
    ∀ (fuel : Nat) (t : Traced σ) (r : Int × Traced σ × Globals),
      copy_loop (traced api) G (i : Int) (j : Int) fuel t = some r →
      r.2.1.closed = t.closed ++ [hs, hd] ∧ r.2.2.g_fdtab = (G.g_fdtab.set i 0).set j 0 := by
  intro fuel
  induction fuel with
  | zero => intro t r h; simp [copy_loop] at h
  | succ n ih =>
    intro t r h
    have hrd := (ce_read_traced api t G (i : Int) COPY_CHUNK).2
    unfold copy_loop at h
    simp only at h
    split at h
    · have hwr := (ce_write_traced api (ce_read (traced api) t G (i : Int) COPY_CHUNK).2.2 G
        (j : Int) (ce_read (traced api) t G (i : Int) COPY_CHUNK).2.1
        (ce_read (traced api) t G (i : Int) COPY_CHUNK).1.toNat).2
      split at h
      · injection h with h
        rw [← h]
        simp only
        obtain ⟨c, g⟩ := close_both_traced api G i j hs hd hi hj hij hsi hsj hs0 hd0 hsI hdI
          (ce_write (traced api) (ce_read (traced api) t G (i : Int) COPY_CHUNK).2.2 G (j : Int)
            (ce_read (traced api) t G (i : Int) COPY_CHUNK).2.1
            (ce_read (traced api) t G (i : Int) COPY_CHUNK).1.toNat).2
        rw [c, g, hwr, hrd]
        exact ⟨rfl, rfl⟩
      · obtain ⟨c, g⟩ := ih _ r h
        rw [c, g, hwr, hrd]
        exact ⟨rfl, rfl⟩
    · injection h with h
      rw [← h]
      simp only
      obtain ⟨c, g⟩ := close_both_traced api G i j hs hd hi hj hij hsi hsj hs0 hd0 hsI hdI
        (ce_read (traced api) t G (i : Int) COPY_CHUNK).2.2
      rw [c, g, hrd]
      exact ⟨rfl, rfl⟩

/-- More fuel never changes what the copy loop returns. -/
theorem copy_loop_fuel_mono {σ : Type} (api : Native σ) (G : Globals) (sfd dfd : Int) :
    ∀ (fuel : Nat) (w : σ) (r : Int × σ × Globals),
      copy_loop api G sfd dfd fuel w = some r → copy_loop api G sfd dfd (fuel + 1) w = some r := by
  intro fuel
  induction fuel with
  | zero => intro w r h; simp [copy_loop] at h
  | succ n ih =>
    intro w r h
    unfold copy_loop at h ⊢
    simp only at h ⊢
    split
    · rename_i hpos
      rw [if_pos hpos] at h
      split
      · rename_i hne
        rw [if_pos hne] at h
        exact h
      · rename_i hne
        rw [if_neg hne] at h
        exact ih _ r h
    · rename_i hpos
      rw [if_neg hpos] at h
      exact h

/-- More fuel never changes what `copy_file` returns. -/
theorem copy_file_fuel_mono {σ : Type} (api : Native σ) (env : Option CStr) (fuel : Nat)
    (w : σ) (G : Globals) (src dst : CStr) (r : Int × σ × Globals)
    (h : copy_file api env fuel w G src dst = some r) :
    copy_file api env (fuel + 1) w G src dst = some r := by
  unfold copy_file at h ⊢
  simp only at h ⊢
  split
  · rename_i h1
    rw [if_pos h1] at h
    exact h
  · rename_i h1
    rw [if_neg h1] at h
    split
    · rename_i h2
      rw [if_pos h2] at h
      exact h
    · rename_i h2
      rw [if_neg h2] at h
      exact copy_loop_fuel_mono api _ _ _ fuel _ r h

/-- C11, as stated, fails when the native open hands out the null handle: on the
reference file system whose next handle value is 0, `copy_file` returns 0 with the
source handle 0 opened but never closed (it is still open in the file system),
because a slot holding 0 counts as empty; the destination even shares the
source's descriptor. -/
theorem c11_counterexample :
    (copy_file (traced simNative) none 4 ⟨⟨[(srcPath, bytes "ab")], [], 0⟩, [], []⟩
        Globals.init (bytes "/s") (bytes "/d")).map
      (fun r => (r.1, r.2.1.opened, r.2.1.closed, r.2.1.world.handles.map Prod.fst))
      = some (0, [0, 1], [1], [0]) := by
  decide

/-- C11, amended: for every initial globals and descriptor table and every
behaviour of the native calls, whenever `copy_file` returns and none of the
handles the native open returned during the call is the null handle, the
descriptor table is the one before the call and the handles closed are exactly
the handles opened (each closed once), so every handle opened has been closed. -/
theorem copy_file_closes_all {σ : Type} (api : Native σ) (env : Option CStr) (fuel : Nat)
    (w : σ) (G : Globals) (src dst : CStr) (r : Int × Traced σ × Globals)
    (hr : copy_file (traced api) env fuel ⟨w, [], []⟩ G src dst = some r)
    (hnn : 0 ∉ r.2.1.opened) :
    r.2.2.g_fdtab = G.g_fdtab ∧ r.2.1.closed.Perm r.2.1.opened ∧
    ∀ h ∈ r.2.1.opened, h ∈ r.2.1.closed := by
  suffices hmain : r.2.2.g_fdtab = G.g_fdtab ∧ r.2.1.closed.Perm r.2.1.opened from
    ⟨hmain.1, hmain.2, fun _ hh => hmain.2.symm.subset hh⟩
  have hopen1 := ce_open_traced api env ⟨w, [], []⟩ G src 0
  unfold copy_file at hr
  simp only at hr
  generalize ce_open (traced api) env ⟨w, [], []⟩ G src 0 = S at hr hopen1
  obtain ⟨s1, st, sg⟩ := S
  simp only at hr hopen1
  rcases hopen1 with ⟨e1, e2, o, e3, e4⟩ | ⟨i, hs, e1, hi, hsI, h0i, e2, e3, e4⟩
  · -- the source could not be opened
    rw [if_pos (by rw [e1]; decide)] at hr
    injection hr with hr
    subst hr
    simp only [List.nil_append] at e3 e4
    refine ⟨e2, ?_⟩
    show st.closed.Perm st.opened
    rw [e3, e4]
  · rw [if_neg (by rw [e1]; omega)] at hr
    have hopen2 := ce_open_traced api env st sg dst 0x41
    generalize ce_open (traced api) env st sg dst 0x41 = D at hr hopen2
    obtain ⟨d1, dt, dg⟩ := D
    simp only at hr hopen2
    simp only [List.nil_append] at e3
    rcases hopen2 with ⟨f1, f2, o, f3, f4⟩ | ⟨j, hd, f1, hj, hdI, h0j, f2, f3, f4⟩
    · -- the destination could not be opened
      rw [if_pos (by rw [f1]; decide)] at hr
      injection hr with hr
      subst hr
      simp only at hnn ⊢
      rw [e1] at hnn ⊢
      rw [ce_close_traced_opened, f3, e3] at hnn
      have hs0 : hs ≠ 0 := by
        intro h0
        apply hnn
        rw [h0]
        simp
      have hslot : dg.g_fdtab.get i = hs := by rw [f2, e2, FdTab.get_set_eq _ i hs hi]
      obtain ⟨c, g⟩ := ce_close_traced_ok api dt dg i hs hi hslot hs0 hsI
      rw [c, g, ce_close_traced_opened, f2, e2, f3, f4, e3, e4]
      refine ⟨FdTab.set_clear G.g_fdtab i hs hi h0i, ?_⟩
      simp only [List.nil_append]
      exact List.perm_append_comm
    · -- both are open: the loop runs
      rw [if_neg (by rw [f1]; omega)] at hr
      rw [e1, f1] at hr
      have hop := copy_loop_traced_opened api dg (i : Int) (j : Int) fuel dt r hr
      rw [hop, f3, e3] at hnn
      have hs0 : hs ≠ 0 := by
        intro h0
        apply hnn
        rw [h0]
        simp
      have hd0 : hd ≠ 0 := by
        intro h0
        apply hnn
        rw [h0]
        simp
      rw [e2] at h0j
      have hij : i ≠ j := by
        intro he
        rw [← he, FdTab.get_set_eq _ i hs hi] at h0j
        exact hs0 h0j
      rw [FdTab.get_set_ne _ i j hs (Ne.symm hij)] at h0j
      have hsi : dg.g_fdtab.get i = hs := by
        rw [f2, e2, FdTab.get_set_ne _ j i hd hij, FdTab.get_set_eq _ i hs hi]
      have hsj : dg.g_fdtab.get j = hd := by
        rw [f2, FdTab.get_set_eq _ j hd hj]
      obtain ⟨c, g⟩ := copy_loop_traced_closed api dg i j hs hd hi hj hij hsi hsj hs0 hd0 hsI hdI
        fuel dt r hr
      rw [c, g, hop, f2, e2, f3, f4, e3, e4]
      refine ⟨FdTab.set_clear_two G.g_fdtab i j hs hd hi hj h0i h0j, ?_⟩
      simp only [List.nil_append, List.append_assoc, List.singleton_append]
      exact List.Perm.refl _

/-- Witness for `copy_file_closes_all`: a 2-byte source copied to a fresh
destination on the reference file system, whose handles start at `0x100`; the run
returns 0 with handles `0x100` and `0x101` opened and closed and the table empty
again. -/
theorem copy_file_closes_all_witness :
    copy_file (traced simNative) none 4 ⟨SimFs.withFiles [(srcPath, bytes "ab")], [], []⟩
        Globals.init (bytes "/s") (bytes "/d")
      = some (0, ⟨⟨[(dstPath, bytes "ab"), (srcPath, bytes "ab")], [], 0x102⟩,
          [0x100, 0x101], [0x100, 0x101]⟩, ⟨DEFAULT_ROOT, bytes "/", FdTab.empty⟩) ∧
    (FdTab.empty = Globals.init.g_fdtab ∧ [0x100, 0x101].Perm [0x100, 0x101] ∧
      ∀ h ∈ [0x100, 0x101], h ∈ [0x100, 0x101]) :=
  ⟨by decide,
   copy_file_closes_all simNative none 4 (SimFs.withFiles [(srcPath, bytes "ab")])
    Globals.init (bytes "/s") (bytes "/d")
    (0, ⟨⟨[(dstPath, bytes "ab"), (srcPath, bytes "ab")], [], 0x102⟩, [0x100, 0x101],
      [0x100, 0x101]⟩, ⟨DEFAULT_ROOT, bytes "/", FdTab.empty⟩)
    (by decide) (by decide)⟩

/-- The exit paths of `copy_file` on the reference file system, each with the
returned value, the handles opened, the handles closed, and the table afterwards:
missing source; destination refused on a read-only medium; table full before the
source; table with one free slot, taken by the source; short write on a full
medium; read error after the first chunk; success. -/
theorem copy_file_exit_paths :
    (copy_file (traced simNative) none 0 ⟨SimFs.withFiles [], [], []⟩ Globals.init
        (bytes "/s") (bytes "/d")).map (fun r => (r.1, r.2.1.opened, r.2.1.closed, r.2.2.g_fdtab))
      = some (-1, [], [], FdTab.empty) ∧
    (copy_file (traced readOnlyDisk) none 0 ⟨SimFs.withFiles [(srcPath, bytes "ab")], [], []⟩
        Globals.init (bytes "/s") (bytes "/d")).map
        (fun r => (r.1, r.2.1.opened, r.2.1.closed, r.2.2.g_fdtab))
      = some (-1, [0x100], [0x100], FdTab.empty) ∧
    (copy_file (traced simNative) none 0 ⟨SimFs.withFiles [(srcPath, bytes "ab")], [], []⟩
        { Globals.init with g_fdtab := busyTable 29 } (bytes "/s") (bytes "/d")).map
        (fun r => (r.1, r.2.1.opened, r.2.1.closed, r.2.2.g_fdtab))
      = some (-1, [0x100], [0x100], busyTable 29) ∧
    (copy_file (traced simNative) none 0 ⟨SimFs.withFiles [(srcPath, bytes "ab")], [], []⟩
        { Globals.init with g_fdtab := busyTable 28 } (bytes "/s") (bytes "/d")).map
        (fun r => (r.1, r.2.1.opened, r.2.1.closed, r.2.2.g_fdtab))
      = some (-1, [0x100, 0x101], [0x101, 0x100], busyTable 28) ∧
    (copy_file (traced fullDisk) none 1 ⟨SimFs.withFiles [(srcPath, bytes "ab")], [], []⟩
        Globals.init (bytes "/s") (bytes "/d")).map
        (fun r => (r.1, r.2.1.opened, r.2.1.closed, r.2.2.g_fdtab))
      = some (-1, [0x100, 0x101], [0x100, 0x101], FdTab.empty) ∧
    (copy_file (traced faultyRead) none 2
        ⟨SimFs.withFiles [(srcPath, List.replicate 2049 7)], [], []⟩
        Globals.init (bytes "/s") (bytes "/d")).map
        (fun r => (r.1, r.2.1.opened, r.2.1.closed, r.2.2.g_fdtab))
      = some (0, [0x100, 0x101], [0x100, 0x101], FdTab.empty) ∧
    (copy_file (traced simNative) none 4
        ⟨SimFs.withFiles [(srcPath, List.replicate 5000 7)], [], []⟩
        Globals.init (bytes "/s") (bytes "/d")).map
        (fun r => (r.1, r.2.1.opened, r.2.1.closed, r.2.2.g_fdtab))
      = some (0, [0x100, 0x101], [0x100, 0x101], FdTab.empty) := by
  refine ⟨by decide!, by decide!, by decide!, by decide!, by decide!, by decide!, by decide!⟩

/-! ## Building the enumeration pattern -/

/-- A `lstrcpynA(dst + off, src, cap)` call stores only inside `dst[off .. off + cap - 1]`. -/
theorem mem_lstrcpynA_writes (off : Nat) (src : CStr) (cap i : Nat)
    (h : i ∈ lstrcpynA_writes off src cap) : off ≤ i ∧ i < off + cap := by
  unfold lstrcpynA_writes at h
  split at h
  · simp at h
  · rename_i hc
    rw [List.mem_range'_1] at h
    have := lstrcpynA_length_le src cap
    omega

/-- `ce_opendir` stores past the end of `pat[1024]` exactly when the translated
native path has the full 1023 bytes and does not end in `'\\'`; the store is then
the terminator `pat[l] = 0` at index 1024. -/
theorem ce_opendir_pat_overflow_iff (env : Option CStr) (g path : CStr) :
    (∃ i ∈ (ce_opendir_pat env g path).2, PATH_CAP ≤ i) ↔
      ((linux_to_wince_path env g path PATH_CAP).length = PATH_CAP - 1 ∧
        (linux_to_wince_path env g path PATH_CAP).getLast? ≠ some 92) := by
  have hlen := linux_to_wince_length_le env g path PATH_CAP
  unfold ce_opendir_pat
  generalize linux_to_wince_path env g path PATH_CAP = wince at hlen ⊢
  have hfit : lstrcpynA wince PATH_CAP = wince :=
    lstrcpynA_fits wince PATH_CAP (by simp only [PATH_CAP] at hlen ⊢; omega)
  simp only [hfit, lstrlenA]
  simp only [PATH_CAP] at hlen ⊢
  constructor
  · rintro ⟨i, hi, hge⟩
    split at hi
    · rename_i hc
      rw [Ne, charAt_last wince 92 hc.1] at hc
      simp only [List.mem_append, List.mem_cons, List.mem_singleton, List.not_mem_nil,
        or_false] at hi
      rcases hi with (hi | hi | hi) | hi
      · have := mem_lstrcpynA_writes _ _ _ _ hi
        omega
      · omega
      · exact ⟨by omega, hc.2⟩
      · have := mem_lstrcpynA_writes _ _ _ _ hi
        omega
    · rw [List.mem_append] at hi
      rcases hi with hi | hi
      · have := mem_lstrcpynA_writes _ _ _ _ hi
        omega
      · have := mem_lstrcpynA_writes _ _ _ _ hi
        omega
  · rintro ⟨hl, hlast⟩
    have hpos : wince.length > 0 := by omega
    have hc : wince.length > 0 ∧ charAt wince (wince.length - 1) ≠ 92 := by
      rw [Ne, charAt_last wince 92 hpos]
      exact ⟨hpos, hlast⟩
    rw [if_pos hc]
    refine ⟨wince.length + 1, ?_, by omega⟩
    simp

/-- C12, at the failing input: under the default root, `ls` of the 1000-byte path
`longLsPath` translates to a native path of the full 1023 bytes ending in a byte
other than `'\\'`; `ce_opendir` then stores the separator at index 1023 and the
terminator at index 1024, one past the end of `pat[1024]`. -/
theorem ce_opendir_writes_past_end :
    DEFAULT_ROOT.length < ROOT_CAP ∧ longLsPath.length = 1000 ∧
    (linux_to_wince_path none [] longLsPath PATH_CAP).length = 1023 ∧
    PATH_CAP ∈ (ce_opendir_pat none [] longLsPath).2 ∧
    ¬ (∀ i ∈ (ce_opendir_pat none [] longLsPath).2, i < PATH_CAP) := by
  refine ⟨by decide, by decide!, by decide!, by decide!, by decide!⟩

/-- For a short path every store stays inside `pat[1024]`: `ls /a` under the
default root. -/
theorem ce_opendir_short_path_in_bounds :
    (ce_opendir_pat none [] (bytes "/a")).1 = bytes "\\Storage Card\\wslce-root\\a\\*" ∧
    ∀ i ∈ (ce_opendir_pat none [] (bytes "/a")).2, i < PATH_CAP := by
  constructor <;> decide

end WslceTiny
